import Mathlib

/-!
Verification development for the task-master repository: a shallow embedding of
the AI-provider layer (AnthropicProvider, AIProviderFactory), of the response
post-processing pipeline shared by the three generation operations, and of the
task-id validator, together with theorems settling the specification claims.

Text is modelled as `List Char`.  JavaScript strings reaching `JSON.parse` are
modelled by a JSON value type plus an executable parser of the JSON grammar
(ECMA-404, as accepted by `JSON.parse`); decoded string contents are kept as
UTF-16 code-unit lists, and numbers keep their lexeme, since no operation in the
repository inspects numeric values.
-/

set_option maxHeartbeats 1000000

/-- Opening curly brace character. -/
def openBrace : Char := '\x7b'

/-- Closing curly brace character. -/
def closeBrace : Char := '\x7d'

/-- Longest prefix of the input ending at its last close brace.  Meaningful when
the input contains a close brace. -/
def upToLastClose : List Char → List Char
  | [] => []
  | c :: cs =>
    if closeBrace ∈ cs then c :: upToLastClose cs
    else if c = closeBrace then [closeBrace] else []

/-- Model of the JavaScript `content.match` call on the greedy pattern that the
three generation operations use (source: part_001 lines 83, 153, 202): the match,
when it exists, starts at the first open brace that is followed by a later close
brace and extends to the last close brace of the whole text.  If the first open
brace of the text has no close brace after it, no later open brace has one
either, so the regex engine finds no match at all. -/
def extractGreedy : List Char → Option (List Char)
  | [] => none
  | c :: cs =>
    if c = openBrace then
      if closeBrace ∈ cs then some (openBrace :: upToLastClose cs) else none
    else extractGreedy cs

theorem upToLastClose_append (mid post : List Char) (h : closeBrace ∉ post) :
    upToLastClose (mid ++ closeBrace :: post) = mid ++ [closeBrace] := by
  induction mid with
  | nil =>
    simp [upToLastClose, h]
  | cons m mid ih =>
    have hmem : closeBrace ∈ mid ++ closeBrace :: post := by
      exact List.mem_append.mpr (Or.inr (List.mem_cons_self _ _))
    simp [upToLastClose, hmem, ih]

theorem upToLastClose_split (cs : List Char) (h : closeBrace ∈ cs) :
    ∃ mid post, cs = mid ++ closeBrace :: post ∧ closeBrace ∉ post ∧
      upToLastClose cs = mid ++ [closeBrace] := by
  induction cs with
  | nil => cases h
  | cons c cs ih =>
    by_cases hin : closeBrace ∈ cs
    · obtain ⟨mid, post, hcs, hpost, hval⟩ := ih hin
      refine ⟨c :: mid, post, by rw [hcs]; rfl, hpost, ?_⟩
      simp [upToLastClose, hin, hval]
    · have hc : c = closeBrace := by
        rcases List.mem_cons.mp h with h1 | h2
        · exact h1.symm
        · exact absurd h2 hin
      refine ⟨[], cs, by rw [hc]; rfl, hin, ?_⟩
      simp [upToLastClose, hin, hc]

/-- Characterization of the greedy extraction: it succeeds exactly on texts that
decompose as a brace-free prefix, an open brace, arbitrary middle, the last close
brace, and a close-brace-free suffix, and it returns the whole region between the
first open brace and the last close brace. -/
theorem extractGreedy_eq_some (cs r : List Char) :
    extractGreedy cs = some r ↔
      ∃ pre mid post, cs = pre ++ openBrace :: (mid ++ closeBrace :: post) ∧
        openBrace ∉ pre ∧ closeBrace ∉ post ∧
        r = openBrace :: (mid ++ [closeBrace]) := by
  induction cs with
  | nil =>
    simp only [extractGreedy]
    constructor
    · intro h; cases h
    · rintro ⟨pre, mid, post, hcs, -, -, -⟩
      exact absurd hcs (by simp)
  | cons c cs ih =>
    by_cases hc : c = openBrace
    · subst hc
      by_cases hin : closeBrace ∈ cs
      · constructor
        · intro h
          have h' : some (openBrace :: upToLastClose cs) = some r := by
            simpa [extractGreedy, hin] using h
          obtain ⟨mid, post, hcs, hpost, hval⟩ := upToLastClose_split cs hin
          refine ⟨[], mid, post, by simp [hcs], by simp, hpost, ?_⟩
          rw [← Option.some_injective _ h', hval]
        · rintro ⟨pre, mid, post, hcs, hpre, hpost, hr⟩
          cases pre with
          | nil =>
            have hcs' : cs = mid ++ closeBrace :: post := by simpa using hcs
            subst hcs'
            simp [extractGreedy, upToLastClose_append mid post hpost, hr]
          | cons p pre =>
            have hp : openBrace = p := by
              have := congrArg (fun l => List.head? l) hcs
              simpa using this
            exact absurd (hp ▸ List.mem_cons_self p pre) hpre
      · constructor
        · intro h
          simp [extractGreedy, hin] at h
        · rintro ⟨pre, mid, post, hcs, hpre, hpost, -⟩
          cases pre with
          | nil =>
            have hcs' : cs = mid ++ closeBrace :: post := by simpa using hcs
            exact absurd (by rw [hcs']; exact List.mem_append.mpr (Or.inr (List.mem_cons_self _ _))) hin
          | cons p pre =>
            have hp : openBrace = p := by
              have := congrArg (fun l => List.head? l) hcs
              simpa using this
            exact absurd (hp ▸ List.mem_cons_self p pre) hpre
    · simp only [extractGreedy, if_neg hc]
      rw [ih]
      constructor
      · rintro ⟨pre, mid, post, hcs, hpre, hpost, hr⟩
        refine ⟨c :: pre, mid, post, by rw [hcs]; rfl, ?_, hpost, hr⟩
        intro hm
        rcases List.mem_cons.mp hm with h1 | h2
        · exact hc h1.symm
        · exact hpre h2
      · rintro ⟨pre, mid, post, hcs, hpre, hpost, hr⟩
        cases pre with
        | nil =>
          exfalso
          apply hc
          have := congrArg (fun l => List.head? l) hcs
          simpa using this
        | cons p pre =>
          have hcs' : cs = pre ++ openBrace :: (mid ++ closeBrace :: post) := by
            have := congrArg List.tail hcs
            simpa using this
          exact ⟨pre, mid, post, hcs', fun hm => hpre (List.mem_cons_of_mem p hm), hpost, hr⟩

/-- A text with no open brace contains no brace region at all. -/
theorem noRegion_of_not_openBrace_mem (cs : List Char) (h : openBrace ∉ cs) :
    ∀ pre mid post, cs ≠ pre ++ openBrace :: (mid ++ closeBrace :: post) := by
  intro pre mid post hcs
  exact h (hcs ▸ List.mem_append.mpr (Or.inr (List.mem_cons_self _ _)))

/-- A text admitting no brace decomposition yields no greedy match. -/
theorem extractGreedy_eq_none (cs : List Char)
    (h : ∀ pre mid post, cs ≠ pre ++ openBrace :: (mid ++ closeBrace :: post)) :
    extractGreedy cs = none := by
  cases he : extractGreedy cs with
  | none => rfl
  | some r =>
    obtain ⟨pre, mid, post, hcs, -, -, -⟩ := (extractGreedy_eq_some cs r).mp he
    exact absurd hcs (h pre mid post)

/-- JSON values as produced by a successful `JSON.parse` call.  String contents
(and object keys) are decoded to UTF-16 code-unit lists; numbers keep their
lexeme, since the repository never inspects numeric values; object fields are
kept in source order with duplicates (property access takes the last one, as in
JavaScript). -/
inductive JVal where
  | jnull
  | jbool (b : Bool)
  | jnum (lexeme : List Char)
  | jstr (units : List Nat)
  | jarr (items : List JVal)
  | jobj (fields : List (List Nat × JVal))

/-- JSON insignificant whitespace (space, tab, line feed, carriage return). -/
def skipWs : List Char → List Char
  | [] => []
  | c :: cs =>
    if c = ' ' ∨ c = '\t' ∨ c = '\n' ∨ c = '\r' then skipWs cs else c :: cs

/-- Value of a hexadecimal digit. -/
def hexVal? (c : Char) : Option Nat :=
  if '0' ≤ c ∧ c ≤ '9' then some (c.toNat - 48)
  else if 'a' ≤ c ∧ c ≤ 'f' then some (c.toNat - 87)
  else if 'A' ≤ c ∧ c ≤ 'F' then some (c.toNat - 55)
  else none

/-- UTF-16 encoding of one code point, as JavaScript strings store it. -/
def utf16Units (c : Char) : List Nat :=
  let n := c.toNat
  if n < 65536 then [n]
  else [55296 + (n - 65536) / 1024, 56320 + (n - 65536) % 1024]

/-- Code unit denoted by a single-character JSON escape. -/
def escapeUnit : Char → Option Nat
  | '"' => some 34
  | '\\' => some 92
  | '/' => some 47
  | 'b' => some 8
  | 'f' => some 12
  | 'n' => some 10
  | 'r' => some 13
  | 't' => some 9
  | _ => none

/-- Parse the body of a JSON string after the opening quote, returning the
decoded code units and the input that follows the closing quote. -/
def parseStrBody : List Char → Option (List Nat × List Char)
  | [] => none
  | '"' :: rest => some ([], rest)
  | '\\' :: 'u' :: h1 :: h2 :: h3 :: h4 :: rest =>
    match hexVal? h1, hexVal? h2, hexVal? h3, hexVal? h4 with
    | some a, some b, some c, some d =>
      (parseStrBody rest).map (fun p => ((4096 * a + 256 * b + 16 * c + d) :: p.1, p.2))
    | _, _, _, _ => none
  | '\\' :: e :: rest =>
    match escapeUnit e with
    | some u => (parseStrBody rest).map (fun p => (u :: p.1, p.2))
    | none => none
  | c :: rest =>
    if c.toNat < 32 then none
    else (parseStrBody rest).map (fun p => (utf16Units c ++ p.1, p.2))

/-- Take the longest run of leading decimal digits. -/
def takeDigits : List Char → List Char × List Char
  | [] => ([], [])
  | c :: cs =>
    if c.isDigit then
      let p := takeDigits cs
      (c :: p.1, p.2)
    else ([], c :: cs)

/-- Integer part of a JSON number: a single zero, or a nonzero digit followed by
digits (no leading zero). -/
def parseIntPart : List Char → Option (List Char × List Char)
  | [] => none
  | c :: cs =>
    if c = '0' then some (['0'], cs)
    else if '1' ≤ c ∧ c ≤ '9' then
      let p := takeDigits cs
      some (c :: p.1, p.2)
    else none

/-- Optional fraction part: a dot must be followed by at least one digit. -/
def parseFracPart : List Char → Option (List Char × List Char)
  | '.' :: cs =>
    match takeDigits cs with
    | ([], _) => none
    | (ds, rest) => some ('.' :: ds, rest)
  | cs => some ([], cs)

/-- Optional exponent part: e or E, an optional sign, then at least one digit. -/
def parseExpPart : List Char → Option (List Char × List Char)
  | [] => some ([], [])
  | e :: cs =>
    if e = 'e' ∨ e = 'E' then
      match cs with
      | [] => none
      | s :: cs2 =>
        if s = '+' ∨ s = '-' then
          match takeDigits cs2 with
          | ([], _) => none
          | (ds, rest) => some (e :: s :: ds, rest)
        else
          match takeDigits (s :: cs2) with
          | ([], _) => none
          | (ds, rest) => some (e :: ds, rest)
    else some ([], e :: cs)

/-- Parse a JSON number, returning its lexeme and the remaining input. -/
def parseNum (cs : List Char) : Option (List Char × List Char) :=
  let p := match cs with
    | '-' :: r => (['-'], r)
    | _ => (([] : List Char), cs)
  match parseIntPart p.2 with
  | none => none
  | some (ip, cs2) =>
    match parseFracPart cs2 with
    | none => none
    | some (fp, cs3) =>
      match parseExpPart cs3 with
      | none => none
      | some (ep, cs4) => some (p.1 ++ ip ++ fp ++ ep, cs4)

mutual

/-- Parse one JSON value from the input (already stripped of leading
whitespace), fuel-bounded. -/
def parseVal : Nat → List Char → Option (JVal × List Char)
  | 0, _ => none
  | _ + 1, [] => none
  | f + 1, c :: cs =>
    if c = openBrace then
      match skipWs cs with
      | [] => none
      | d :: cs2 =>
        if d = closeBrace then some (.jobj [], cs2)
        else
          match parseObjFields f (d :: cs2) with
          | some (fs, rest) => some (.jobj fs, rest)
          | none => none
    else if c = '[' then
      match skipWs cs with
      | ']' :: cs2 => some (.jarr [], cs2)
      | cs2 =>
        match parseArrItems f cs2 with
        | some (items, rest) => some (.jarr items, rest)
        | none => none
    else if c = '"' then
      match parseStrBody cs with
      | some (units, rest) => some (.jstr units, rest)
      | none => none
    else
      match c :: cs with
      | 'n' :: 'u' :: 'l' :: 'l' :: rest => some (.jnull, rest)
      | 't' :: 'r' :: 'u' :: 'e' :: rest => some (.jbool true, rest)
      | 'f' :: 'a' :: 'l' :: 's' :: 'e' :: rest => some (.jbool false, rest)
      | cs' =>
        match parseNum cs' with
        | some (lex, rest) => some (.jnum lex, rest)
        | none => none

/-- Parse the comma-separated items of a non-empty JSON array up to the closing
bracket. -/
def parseArrItems : Nat → List Char → Option (List JVal × List Char)
  | 0, _ => none
  | f + 1, cs =>
    match parseVal f (skipWs cs) with
    | none => none
    | some (v, rest) =>
      match skipWs rest with
      | ',' :: cs2 =>
        match parseArrItems f cs2 with
        | some (items, rest2) => some (v :: items, rest2)
        | none => none
      | ']' :: cs2 => some ([v], cs2)
      | _ => none

/-- Parse the members of a non-empty JSON object up to the closing brace. -/
def parseObjFields : Nat → List Char → Option (List (List Nat × JVal) × List Char)
  | 0, _ => none
  | f + 1, cs =>
    match skipWs cs with
    | '"' :: cs1 =>
      match parseStrBody cs1 with
      | none => none
      | some (key, cs2) =>
        match skipWs cs2 with
        | ':' :: cs3 =>
          match parseVal f (skipWs cs3) with
          | none => none
          | some (v, cs4) =>
            match skipWs cs4 with
            | ',' :: cs5 =>
              match parseObjFields f cs5 with
              | some (fs, rest) => some ((key, v) :: fs, rest)
              | none => none
            | d :: cs5 => if d = closeBrace then some ([(key, v)], cs5) else none
            | [] => none
        | _ => none
    | _ => none

end

/-- Model of `JSON.parse` on a whole text: one value, optionally surrounded by
whitespace, nothing after it.  The fuel bound exceeds the nesting depth, which
is at most the input length, so it never cuts a parse short. -/
def jsonParse (cs : List Char) : Option JVal :=
  match parseVal (cs.length + 1) (skipWs cs) with
  | some (v, rest) => if skipWs rest = [] then some v else none
  | none => none

/-- JavaScript property access on a parsed object takes the last field with the
given key; on any non-object it yields undefined (here none). -/
def lookupLast (fields : List (List Nat × JVal)) (k : List Nat) : Option JVal :=
  fields.foldl (fun acc p => if p.1 = k then some p.2 else acc) none

/-- Property access on a JSON value. -/
def jGet : JVal → List Nat → Option JVal
  | .jobj fs, k => lookupLast fs k
  | _, _ => none

/-- Code units of the property name tasks. -/
def tasksKey : List Nat := [116, 97, 115, 107, 115]

/-- Code units of the property name subtasks. -/
def subtasksKey : List Nat := [115, 117, 98, 116, 97, 115, 107, 115]

/-- Modelled from the spec: the claims for generateTasks and expandTask say the
operation extracts the first balanced curly-brace region of the reply.  This
scans to the first open brace and returns the region up to the close brace that
balances it by depth counting. -/
def balancedFrom : Nat → List Char → Option (List Char)
  | _, [] => none
  | depth, c :: cs =>
    if c = openBrace then (balancedFrom (depth + 1) cs).map (fun r => c :: r)
    else if c = closeBrace then
      if depth = 1 then some [closeBrace]
      else (balancedFrom (depth - 1) cs).map (fun r => c :: r)
    else (balancedFrom depth cs).map (fun r => c :: r)

/-- Modelled from the spec: first balanced curly-brace region of a text. -/
def specExtractBalanced (cs : List Char) : Option (List Char) :=
  match cs.dropWhile (fun c => c ≠ openBrace) with
  | [] => none
  | rest => balancedFrom 0 rest

/-- Message of the error thrown when the greedy regex finds no match
(source: part_001 lines 85, 155, 204). -/
def parseFailMsg : List Char := "Failed to parse JSON from response".toList

/-- Message of the error thrown when the required array field is missing
(source: part_001 lines 90, 160). -/
def invalidFormatMsg : List Char := "Invalid response format".toList

/-- Response post-processing of generateTasks (source: part_001 lines 82-93):
greedy regex extraction, `JSON.parse`, then the tasks field, which must be an
array (a missing or falsy field and a non-array field both throw).  The message
of the engine-raised SyntaxError on a failed parse is engine-specific and is
passed in as `synMsg`. -/
def processTasks (synMsg content : List Char) : Except (List Char) (List JVal) :=
  match extractGreedy content with
  | none => .error parseFailMsg
  | some region =>
    match jsonParse region with
    | none => .error synMsg
    | some v =>
      match jGet v tasksKey with
      | some (.jarr ts) => .ok ts
      | _ => .error invalidFormatMsg

/-- Response post-processing of expandTask (source: part_001 lines 152-163):
identical to processTasks but on the subtasks field. -/
def processSubtasks (synMsg content : List Char) : Except (List Char) (List JVal) :=
  match extractGreedy content with
  | none => .error parseFailMsg
  | some region =>
    match jsonParse region with
    | none => .error synMsg
    | some v =>
      match jGet v subtasksKey with
      | some (.jarr ss) => .ok ss
      | _ => .error invalidFormatMsg

/-- Response post-processing of analyzeComplexity (source: part_001 lines
201-207): greedy extraction and `JSON.parse`, the parsed value returned directly
with no field requirement. -/
def processAnalyze (synMsg content : List Char) : Except (List Char) JVal :=
  match extractGreedy content with
  | none => .error parseFailMsg
  | some region =>
    match jsonParse region with
    | none => .error synMsg
    | some v => .ok v

/-- Modelled from the spec wording of the extraction discipline: the pipeline of
the claim for generateTasks, with the first balanced region in place of the
greedy match. -/
def specProcessTasks (synMsg content : List Char) : Except (List Char) (List JVal) :=
  match specExtractBalanced content with
  | none => .error parseFailMsg
  | some region =>
    match jsonParse region with
    | none => .error synMsg
    | some v =>
      match jGet v tasksKey with
      | some (.jarr ts) => .ok ts
      | _ => .error invalidFormatMsg

/-- Structured error body of an Anthropic API error value (the object under the
error property). -/
structure ApiErrBody where
  btype : String
  bmessage : List Char
deriving DecidableEq

/-- A JavaScript error value as handleError inspects it: an optional type
property, an optional structured error property, and a message string. -/
structure JsError where
  etype : Option String
  ebody : Option ApiErrBody
  message : List Char
deriving DecidableEq

/-- A plain `new Error(m)` value: no structured fields, just the message. -/
def plainErr (m : List Char) : JsError := ⟨none, none, m⟩

/-- Message returned for an overloaded_error (source: part_001 line 222). -/
def overloadMsg : List Char :=
  "Claude is currently experiencing high demand and is overloaded. Please wait a few minutes and try again.".toList

/-- Message returned for a rate_limit_error (source: part_001 line 224). -/
def rateLimitMsg : List Char :=
  "You have exceeded the rate limit. Please wait a few minutes before making more requests.".toList

/-- Message returned for an invalid_request_error (source: part_001 line 226). -/
def invalidRequestMsg : List Char :=
  "There was an issue with the request format. If this persists, please report it as a bug.".toList

/-- Message returned when the error message mentions a timeout (source:
part_001 line 234). -/
def timeoutMsg : List Char :=
  "The request to Claude timed out. Please try again.".toList

/-- Message returned when the error message mentions a network problem (source:
part_001 line 237). -/
def networkMsg : List Char :=
  "There was a network error connecting to Claude. Please check your internet connection and try again.".toList

/-- Prefix of the default branch of the structured-error switch (source:
part_001 line 228). -/
def apiErrPrefix : List Char := "Claude API error: ".toList

/-- Prefix of the final default message (source: part_001 line 241). -/
def genericPrefix : List Char := "Error communicating with Claude: ".toList

/-- ASCII lowering, modelling toLowerCase on the messages at hand. -/
def lowerChars (m : List Char) : List Char := m.map Char.toLower

/-- Substring test, modelling String.prototype.includes. -/
def hasSub (s pat : List Char) : Bool :=
  match s with
  | [] => pat.isEmpty
  | c :: tail => pat.isPrefixOf (c :: tail) || hasSub tail pat

/-- Fallback classification of handleError once the structured check fails
(source: part_001 lines 233-241): timeout, then network, then the generic
message carrying the underlying detail. -/
def handleErrorFallback (e : JsError) : List Char :=
  if hasSub (lowerChars e.message) "timeout".toList then timeoutMsg
  else if hasSub (lowerChars e.message) "network".toList then networkMsg
  else genericPrefix ++ e.message

/-- Model of AnthropicProvider.handleError (source: part_001 lines 217-242):
a structured error with type error is classified by its inner type with a
Claude-API-error default carrying the inner message; anything else goes through
the timeout/network/generic fallback. -/
def handleError (e : JsError) : List Char :=
  match e.etype, e.ebody with
  | some t, some b =>
    if t = "error" then
      if b.btype = "overloaded_error" then overloadMsg
      else if b.btype = "rate_limit_error" then rateLimitMsg
      else if b.btype = "invalid_request_error" then invalidRequestMsg
      else apiErrPrefix ++ b.bmessage
    else handleErrorFallback e
  | _, _ => handleErrorFallback e

/-- Full generateTasks run after the vendor call (source: part_001 lines
73-97): a vendor error or any error thrown while post-processing is rewrapped as
`new Error(this.handleError(error))`. -/
def generateTasksRun (synMsg : List Char) (vendor : Except JsError (List Char)) :
    Except (List Char) (List JVal) :=
  match vendor with
  | .error e => .error (handleError e)
  | .ok content =>
    match processTasks synMsg content with
    | .ok ts => .ok ts
    | .error m => .error (handleError (plainErr m))

/-- Full expandTask run after the vendor call (source: part_001 lines 143-166). -/
def expandTaskRun (synMsg : List Char) (vendor : Except JsError (List Char)) :
    Except (List Char) (List JVal) :=
  match vendor with
  | .error e => .error (handleError e)
  | .ok content =>
    match processSubtasks synMsg content with
    | .ok ss => .ok ss
    | .error m => .error (handleError (plainErr m))

/-- Full analyzeComplexity run after the vendor call (source: part_001 lines
192-210). -/
def analyzeComplexityRun (synMsg : List Char) (vendor : Except JsError (List Char)) :
    Except (List Char) JVal :=
  match vendor with
  | .error e => .error (handleError e)
  | .ok content =>
    match processAnalyze synMsg content with
    | .ok v => .ok v
    | .error m => .error (handleError (plainErr m))

/-- Provider configuration as the factory and providers see it: both properties
may be absent (undefined). -/
structure ProviderConfig where
  apiKey : Option String
  model : Option String
deriving DecidableEq, Repr

/-- JavaScript truthiness of config?.apiKey: the config must be present and its
apiKey a non-empty string. -/
def hasApiKey : Option ProviderConfig → Bool
  | none => false
  | some c =>
    match c.apiKey with
    | none => false
    | some k => if k = "" then false else true

/-- Model of AnthropicProvider.isAvailable (source: part_001 lines 247-262):
false without a truthy configured apiKey, otherwise the outcome of the minimal
vendor call, any thrown error collapsing to false. -/
def isAvailableAnthropic (cfg : Option ProviderConfig) (minimalCall : Except JsError Unit) : Bool :=
  match cfg with
  | none => false
  | some c =>
    match c.apiKey with
    | none => false
    | some k =>
      if k = "" then false
      else
        match minimalCall with
        | .ok _ => true
        | .error _ => false

/-- A JavaScript argument as passed to the validator: a string, null, undefined,
or any other non-string value. -/
inductive JsArg where
  | jstr (s : String)
  | jsNull
  | jsUndefined
  | jsOther
deriving DecidableEq, Repr

/-- Check of the numeral part of a task id, mirroring the alternation of the
specified pattern: either the single digit zero, or a nonzero digit followed by
digits. -/
def digitsNoLeadZero : List Char → Bool
  | [] => false
  | c :: rest =>
    (decide (c = '0') && rest.isEmpty) ||
      (decide ('1' ≤ c ∧ c ≤ '9') && rest.all (fun d => d.isDigit))

/-- Modelled from the spec: the repository holds only the ticket describing
isValidTaskId (src/unnamed/part_000); no implementation is under src.  Following
the ticket and spec section 4.1: the input must be a string with the literal
case-sensitive prefix TASK- followed by a numeral with no leading zero unless it
is the single digit zero, total length between 6 and 12 inclusive; every
non-string input (null, undefined, others) yields false and nothing throws. -/
def isValidTaskId (x : JsArg) : Bool :=
  match x with
  | .jstr s =>
    (match s.data with
     | 'T' :: 'A' :: 'S' :: 'K' :: '-' :: ds => digitsNoLeadZero ds
     | _ => false) && decide (6 ≤ s.length) && decide (s.length ≤ 12)
  | _ => false

/-- Error codes of ProviderError (source: part_002). -/
inductive PCode where
  | INVALID_PROVIDER
  | INVALID_CONFIG
  | MODULE_LOAD_ERROR
  | INIT_ERROR
  | PROVIDER_UNAVAILABLE
  | NO_PROVIDERS
  | UNKNOWN_ERROR
deriving DecidableEq, Repr

/-- A ProviderError: a message and a stable code (source: part_002 lines 6-12). -/
structure PErr where
  message : String
  code : PCode
deriving DecidableEq, Repr

/-- The statically supported provider types (source: part_002 line 19). -/
def SUPPORTED_PROVIDERS : List String := ["anthropic", "google"]

/-- Message of an INVALID_PROVIDER error (source: part_002 line 29). -/
def invalidProviderMsg (ty : String) : String :=
  "Provider type \x27" ++ ty ++ "\x27 not supported. Must be one of: anthropic, google"

/-- Message of an INVALID_CONFIG error (source: part_002 line 44). -/
def apiKeyRequiredMsg (ty : String) : String :=
  "API key is required for " ++ ty ++ " provider"

/-- Message of a MODULE_LOAD_ERROR error (source: part_002 line 83). -/
def moduleLoadFailMsg (ty m : String) : String :=
  "Failed to load " ++ ty ++ " provider module: " ++ m

/-- Message of an INIT_ERROR error (source: part_002 line 94). -/
def initFailMsg (ty m : String) : String :=
  "Failed to initialize " ++ ty ++ " provider: " ++ m

/-- Message of a PROVIDER_UNAVAILABLE error (source: part_002 line 102). -/
def unavailableMsg (ty : String) : String :=
  ty ++ " provider is not available after initialization"

/-- Message of a NO_PROVIDERS error (source: part_002 line 158). -/
def noProvidersMsg : String :=
  "No AI providers are available. Please check your configuration and API keys."

/-- Warning logged when the preferred provider fails (source: part_002 line 140). -/
def warnPreferredMsg (ty m : String) : String :=
  "Failed to initialize preferred provider (" ++ ty ++ "): " ++ m

/-- Warning logged when a provider fails inside the fallback or collection loops
(source: part_002 lines 153, 180). -/
def warnProviderMsg (ty m : String) : String :=
  "Failed to initialize " ++ ty ++ " provider: " ++ m

/-- Outcomes of the dynamic steps of one getProvider call: whether the probe of
a cached instance succeeds, whether the dynamic import fails (with the message of
the import error), whether initialize throws (with its message), and whether the
probe of the freshly built instance succeeds. -/
structure CallDyn where
  probeCachedOk : Bool
  loadErr : Option String
  initErr : Option String
  probeNewOk : Bool
deriving DecidableEq, Repr

/-- Observable effects of a getProvider call, in order: probing a cached
instance, the dynamic import, constructing an instance, initializing it with the
supplied config, probing it, and writing it to the cache. -/
inductive Ev where
  | probeCached (id : Nat) (ok : Bool)
  | moduleLoad (ty : String) (ok : Bool)
  | construct (id : Nat)
  | initAttempt (id : Nat) (cfg : Option ProviderConfig) (ok : Bool)
  | probeNew (id : Nat) (ok : Bool)
  | cacheWrite (ty : String) (id : Nat)
deriving DecidableEq, Repr

/-- Factory state: the instance cache (a JavaScript Map from type to instance,
instances identified by construction order) and the next fresh instance
identity. -/
structure FState where
  cache : List (String × Nat)
  nextId : Nat
deriving DecidableEq, Repr

/-- Map lookup by key. -/
def assocFind : List (String × Nat) → String → Option Nat
  | [], _ => none
  | (k, v) :: r, q => if k = q then some v else assocFind r q

/-- Map deletion of the entry of a key. -/
def assocErase : List (String × Nat) → String → List (String × Nat)
  | [], _ => []
  | (k, v) :: r, q => if k = q then r else (k, v) :: assocErase r q

/-- Map set: replace the entry if the key is present, else append. -/
def assocSet : List (String × Nat) → String → Nat → List (String × Nat)
  | [], k, v => [(k, v)]
  | (k1, v1) :: r, k, v =>
    if k1 = k then (k, v) :: r else (k1, v1) :: assocSet r k v

/-- Construction phase of getProvider after validation and cache miss or
eviction (source: part_002 lines 76-110): the dynamic import (MODULE_LOAD_ERROR
on failure), construction, initialize with the supplied config (INIT_ERROR on
failure), the availability probe (PROVIDER_UNAVAILABLE when false), then caching. -/
def buildNew (st : FState) (ty : String) (cfg : Option ProviderConfig) (d : CallDyn)
    (tr : List Ev) : (Except PErr Nat) × FState × List Ev :=
  match d.loadErr with
  | some m => (.error ⟨moduleLoadFailMsg ty m, .MODULE_LOAD_ERROR⟩, st, tr ++ [.moduleLoad ty false])
  | none =>
    match d.initErr with
    | some m =>
      (.error ⟨initFailMsg ty m, .INIT_ERROR⟩, ⟨st.cache, st.nextId + 1⟩,
        tr ++ [.moduleLoad ty true, .construct st.nextId, .initAttempt st.nextId cfg false])
    | none =>
      if d.probeNewOk then
        (.ok st.nextId, ⟨assocSet st.cache ty st.nextId, st.nextId + 1⟩,
          tr ++ [.moduleLoad ty true, .construct st.nextId, .initAttempt st.nextId cfg true,
            .probeNew st.nextId true, .cacheWrite ty st.nextId])
      else
        (.error ⟨unavailableMsg ty, .PROVIDER_UNAVAILABLE⟩, ⟨st.cache, st.nextId + 1⟩,
          tr ++ [.moduleLoad ty true, .construct st.nextId, .initAttempt st.nextId cfg true,
            .probeNew st.nextId false])

/-- Model of AIProviderFactory.getProvider (source: part_002 lines 57-121):
validate the type (INVALID_PROVIDER), validate the config (INVALID_CONFIG),
return a cached instance whose probe succeeds, evict it when it does not, then
build afresh.  The result carries the new state and the trace of effects; an
empty trace means no probe, import, construction, initialization or cache write
was attempted. -/
def getProviderM (st : FState) (ty : String) (cfg : Option ProviderConfig) (d : CallDyn) :
    (Except PErr Nat) × FState × List Ev :=
  if ty ∈ SUPPORTED_PROVIDERS then
    if hasApiKey cfg then
      match assocFind st.cache ty with
      | some cachedId =>
        if d.probeCachedOk then (.ok cachedId, st, [.probeCached cachedId true])
        else buildNew ⟨assocErase st.cache ty, st.nextId⟩ ty cfg d [.probeCached cachedId false]
      | none => buildNew st ty cfg d []
    else (.error ⟨apiKeyRequiredMsg ty, .INVALID_CONFIG⟩, st, [])
  else (.error ⟨invalidProviderMsg ty, .INVALID_PROVIDER⟩, st, [])

/-- JavaScript toUpperCase on a type name (the names at hand are ASCII). -/
def jsUpper (s : String) : String := String.mk (s.data.map Char.toUpper)

/-- Name of the environment variable holding the api key of a type
(source: part_002 lines 135, 148, 174). -/
def envKeyApi (ty : String) : String := jsUpper ty ++ "_API_KEY"

/-- Name of the environment variable holding the model of a type
(source: part_002 lines 136, 149, 175). -/
def envKeyModel (ty : String) : String := jsUpper ty ++ "_MODEL"

/-- The config object literal built for one provider type inside
getBestProvider and getAllProviders: apiKey and model from the environment,
then the per-type section of the config argument spread over them (a property
present in the section overrides the environment one). -/
def builtConfig (env : String → Option String) (cfgMap : String → Option ProviderConfig)
    (ty : String) : Option ProviderConfig :=
  some
    (match cfgMap ty with
     | none => ⟨env (envKeyApi ty), env (envKeyModel ty)⟩
     | some o =>
       ⟨(o.apiKey).orElse (fun _ => env (envKeyApi ty)),
        (o.model).orElse (fun _ => env (envKeyModel ty))⟩)

/-- The fallback loop of getBestProvider (source: part_002 lines 145-155): try
each type in order, return the first success, log one warning per failure; when
the list ends, fail with NO_PROVIDERS (line 157).  The attempt counter indexes
into the per-call dynamic outcomes. -/
def tryLoop (env : String → Option String) (cfgMap : String → Option ProviderConfig)
    (dyn : Nat → CallDyn) : List String → FState → Nat → (Except PErr Nat) × FState × List String
  | [], st, _ => (.error ⟨noProvidersMsg, .NO_PROVIDERS⟩, st, [])
  | ty :: rest, st, k =>
    match getProviderM st ty (builtConfig env cfgMap ty) (dyn k) with
    | (.ok id, st1, _) => (.ok id, st1, [])
    | (.error e, st1, _) =>
      let p := tryLoop env cfgMap dyn rest st1 (k + 1)
      (p.1, p.2.1, warnProviderMsg ty e.message :: p.2.2)

/-- Model of AIProviderFactory.getBestProvider (source: part_002 lines 129-161):
when the AI_PROVIDER environment variable holds a truthy value, that type is
tried first with credentials read from its environment variables, a failure
being logged with the preferred-provider warning; then the fixed order anthropic,
google.  The third component collects the logged warnings. -/
def getBestProviderM (env : String → Option String) (cfgMap : String → Option ProviderConfig)
    (dyn : Nat → CallDyn) (st : FState) : (Except PErr Nat) × FState × List String :=
  match env "AI_PROVIDER" with
  | none => tryLoop env cfgMap dyn ["anthropic", "google"] st 0
  | some p =>
    if p = "" then tryLoop env cfgMap dyn ["anthropic", "google"] st 0
    else
      match getProviderM st p (builtConfig env cfgMap p) (dyn 0) with
      | (.ok id, st1, _) => (.ok id, st1, [])
      | (.error e, st1, _) =>
        let q := tryLoop env cfgMap dyn ["anthropic", "google"] st1 1
        (q.1, q.2.1, warnPreferredMsg p e.message :: q.2.2)

/-- Collection loop of getAllProviders (source: part_002 lines 171-182): every
type is attempted; a success is added to the result map, a failure is logged and
skipped; the loop never aborts. -/
def collectAll (env : String → Option String) (cfgMap : String → Option ProviderConfig)
    (dyn : Nat → CallDyn) : List String → FState → Nat → List (String × Nat) × FState × List String
  | [], st, _ => ([], st, [])
  | ty :: rest, st, k =>
    match getProviderM st ty (builtConfig env cfgMap ty) (dyn k) with
    | (.ok id, st1, _) =>
      let p := collectAll env cfgMap dyn rest st1 (k + 1)
      ((ty, id) :: p.1, p.2.1, p.2.2)
    | (.error e, st1, _) =>
      let p := collectAll env cfgMap dyn rest st1 (k + 1)
      (p.1, p.2.1, warnProviderMsg ty e.message :: p.2.2)

/-- Model of AIProviderFactory.getAllProviders (source: part_002 lines 168-185). -/
def getAllProvidersM (env : String → Option String) (cfgMap : String → Option ProviderConfig)
    (dyn : Nat → CallDyn) (st : FState) : List (String × Nat) × FState × List String :=
  collectAll env cfgMap dyn SUPPORTED_PROVIDERS st 0

/-- The attempt list of getBestProvider as the claim describes it: the preferred
type named by a truthy AI_PROVIDER value first (marked as preferred), then the
fixed order anthropic, google. -/
def attemptsOf (envAI : Option String) : List (String × Bool) :=
  (match envAI with
   | none => []
   | some p => if p = "" then [] else [(p, true)]) ++ [("anthropic", false), ("google", false)]

/-- Uniform first-success recursion over an attempt list: returns the first
attempt that succeeds, collecting one warning per failed attempt before it
(worded for the preferred attempt, plainly for the others), and fails with
NO_PROVIDERS when every attempt fails. -/
def runAttempts (env : String → Option String) (cfgMap : String → Option ProviderConfig)
    (dyn : Nat → CallDyn) : List (String × Bool) → FState → Nat → (Except PErr Nat) × FState × List String
  | [], st, _ => (.error ⟨noProvidersMsg, .NO_PROVIDERS⟩, st, [])
  | (ty, pref) :: rest, st, k =>
    match getProviderM st ty (builtConfig env cfgMap ty) (dyn k) with
    | (.ok id, st1, _) => (.ok id, st1, [])
    | (.error e, st1, _) =>
      let p := runAttempts env cfgMap dyn rest st1 (k + 1)
      (p.1, p.2.1,
        (if pref then warnPreferredMsg ty e.message else warnProviderMsg ty e.message) :: p.2.2)

/-- Registry invariant: the cache never holds two entries for one provider type. -/
def FKeysNodup (st : FState) : Prop := (st.cache.map Prod.fst).Nodup

/-- Registry invariant: every cached instance identity is below the next fresh
identity. -/
def FIdsBelow (st : FState) : Prop := ∀ p ∈ st.cache, p.2 < st.nextId

theorem assocFind_set_self (m : List (String × Nat)) (k : String) (v : Nat) :
    assocFind (assocSet m k v) k = some v := by
  induction m with
  | nil => simp [assocSet, assocFind]
  | cons p r ih =>
    by_cases hk : p.1 = k
    · simp [assocSet, hk, assocFind]
    · simp [assocSet, hk, assocFind, ih]

theorem assocFind_set_ne (m : List (String × Nat)) (k q : String) (v : Nat) (h : q ≠ k) :
    assocFind (assocSet m k v) q = assocFind m q := by
  have hkq : ¬k = q := fun hh => h hh.symm
  induction m with
  | nil => simp [assocSet, assocFind, hkq]
  | cons p r ih =>
    by_cases hk : p.1 = k
    · simp [assocSet, hk, assocFind, hkq]
    · by_cases hq : p.1 = q
      · simp [assocSet, hk, assocFind, hq, h]
      · simp [assocSet, hk, assocFind, hq, ih]

theorem assocFind_erase_ne (m : List (String × Nat)) (k q : String) (h : q ≠ k) :
    assocFind (assocErase m k) q = assocFind m q := by
  have hkq : ¬k = q := fun hh => h hh.symm
  induction m with
  | nil => simp [assocErase]
  | cons p r ih =>
    by_cases hk : p.1 = k
    · have hq : ¬p.1 = q := by rw [hk]; exact hkq
      simp [assocErase, hk, assocFind, hq, hkq]
    · by_cases hq : p.1 = q
      · simp [assocErase, hk, assocFind, hq, h]
      · simp [assocErase, hk, assocFind, hq, ih]

theorem assocFind_mem (m : List (String × Nat)) (q : String) (v : Nat)
    (h : assocFind m q = some v) : (q, v) ∈ m := by
  induction m with
  | nil => cases h
  | cons p r ih =>
    by_cases hq : p.1 = q
    · simp only [assocFind, if_pos hq] at h
      have : p = (q, v) := by
        cases p
        cases h
        simpa using hq
      simp [← this]
    · simp only [assocFind, if_neg hq] at h
      exact List.mem_cons_of_mem p (ih h)

theorem assocErase_sublist (m : List (String × Nat)) (k : String) :
    (assocErase m k).Sublist m := by
  induction m with
  | nil => simp [assocErase]
  | cons p r ih =>
    by_cases hk : p.1 = k
    · rw [show assocErase (p :: r) k = r by simp [assocErase, hk]]
      exact List.sublist_cons_self p r
    · rw [show assocErase (p :: r) k = p :: assocErase r k by simp [assocErase, hk]]
      exact List.Sublist.cons₂ p ih

theorem mem_assocSet (m : List (String × Nat)) (k : String) (v : Nat) :
    ∀ x ∈ assocSet m k v, x = (k, v) ∨ x ∈ m := by
  induction m with
  | nil => simp [assocSet]
  | cons p r ih =>
    intro x hx
    by_cases hk : p.1 = k
    · simp only [assocSet, if_pos hk] at hx
      rcases List.mem_cons.mp hx with h1 | h2
      · exact Or.inl h1
      · exact Or.inr (List.mem_cons_of_mem p h2)
    · simp only [assocSet, if_neg hk] at hx
      rcases List.mem_cons.mp hx with h1 | h2
      · exact Or.inr (h1 ▸ List.mem_cons_self p r)
      · rcases ih x h2 with h3 | h4
        · exact Or.inl h3
        · exact Or.inr (List.mem_cons_of_mem p h4)

theorem keys_nodup_erase (m : List (String × Nat)) (k : String)
    (h : (m.map Prod.fst).Nodup) : ((assocErase m k).map Prod.fst).Nodup :=
  ((assocErase_sublist m k).map Prod.fst).nodup h

theorem keys_nodup_set (m : List (String × Nat)) (k : String) (v : Nat)
    (h : (m.map Prod.fst).Nodup) : ((assocSet m k v).map Prod.fst).Nodup := by
  induction m with
  | nil => simp [assocSet]
  | cons p r ih =>
    rw [List.map_cons, List.nodup_cons] at h
    by_cases hk : p.1 = k
    · simp only [assocSet, if_pos hk, List.map_cons, List.nodup_cons]
      exact ⟨by simpa [← hk] using h.1, h.2⟩
    · simp only [assocSet, if_neg hk, List.map_cons, List.nodup_cons]
      refine ⟨?_, ih h.2⟩
      intro hmem
      rcases List.mem_map.mp hmem with ⟨x, hx, hx1⟩
      rcases mem_assocSet r k v x hx with h1 | h2
      · exact hk (by rw [← hx1, h1])
      · exact h.1 (hx1 ▸ List.mem_map_of_mem Prod.fst h2)

theorem buildNew_ok {st : FState} {ty : String} {cfg : Option ProviderConfig} {d : CallDyn}
    {tr : List Ev} {id : Nat} {st1 : FState} {tr1 : List Ev}
    (h : buildNew st ty cfg d tr = (.ok id, st1, tr1)) :
    id = st.nextId ∧ st1 = ⟨assocSet st.cache ty st.nextId, st.nextId + 1⟩ ∧
      tr1 = tr ++ [.moduleLoad ty true, .construct st.nextId, .initAttempt st.nextId cfg true,
        .probeNew st.nextId true, .cacheWrite ty st.nextId] := by
  unfold buildNew at h
  split at h
  · simp at h
  · split at h
    · simp at h
    · split at h
      · simp only [Prod.mk.injEq, Except.ok.injEq] at h
        exact ⟨h.1.symm, h.2.1.symm, h.2.2.symm⟩
      · simp at h

theorem buildNew_error {st : FState} {ty : String} {cfg : Option ProviderConfig} {d : CallDyn}
    {tr : List Ev} {e : PErr} {st1 : FState} {tr1 : List Ev}
    (h : buildNew st ty cfg d tr = (.error e, st1, tr1)) :
    st1.cache = st.cache := by
  unfold buildNew at h
  split at h
  · simp only [Prod.mk.injEq] at h
    rw [← h.2.1]
  · split at h
    · simp only [Prod.mk.injEq] at h
      rw [← h.2.1]
    · split at h
      · simp at h
      · simp only [Prod.mk.injEq] at h
        rw [← h.2.1]

theorem getProviderM_ok_find {st : FState} {ty : String} {cfg : Option ProviderConfig}
    {d : CallDyn} {id : Nat} {st1 : FState} {tr : List Ev}
    (h : getProviderM st ty cfg d = (.ok id, st1, tr)) :
    assocFind st1.cache ty = some id := by
  unfold getProviderM at h
  split at h
  · split at h
    · split at h
      · rename_i cachedId hfind
        split at h
        · simp only [Prod.mk.injEq, Except.ok.injEq] at h
          rw [← h.2.1, ← h.1]
          exact hfind
        · obtain ⟨h1, h2, -⟩ := buildNew_ok h
          rw [h1, h2]
          exact assocFind_set_self _ _ _
      · obtain ⟨h1, h2, -⟩ := buildNew_ok h
        rw [h1, h2]
        exact assocFind_set_self _ _ _
    · simp at h
  · simp at h

theorem getProviderM_ok_cases {st : FState} {ty : String} {cfg : Option ProviderConfig}
    {d : CallDyn} {id : Nat} {st1 : FState} {tr : List Ev}
    (h : getProviderM st ty cfg d = (.ok id, st1, tr)) :
    (st1 = st ∧ assocFind st.cache ty = some id) ∨
      (id = st.nextId ∧
        (st1.cache = assocSet st.cache ty st.nextId ∨
          st1.cache = assocSet (assocErase st.cache ty) ty st.nextId) ∧
        Ev.initAttempt id cfg true ∈ tr ∧ Ev.probeNew id true ∈ tr) := by
  unfold getProviderM at h
  split at h
  · split at h
    · split at h
      · rename_i cachedId hfind
        split at h
        · simp only [Prod.mk.injEq, Except.ok.injEq] at h
          exact Or.inl ⟨h.2.1.symm, by rw [← h.1]; exact hfind⟩
        · obtain ⟨h1, h2, h3⟩ := buildNew_ok h
          refine Or.inr ⟨h1, Or.inr (by rw [h2]), ?_, ?_⟩
          · rw [h3, h1]; simp
          · rw [h3, h1]; simp
      · obtain ⟨h1, h2, h3⟩ := buildNew_ok h
        refine Or.inr ⟨h1, Or.inl (by rw [h2]), ?_, ?_⟩
        · rw [h3, h1]; simp
        · rw [h3, h1]; simp
    · simp at h
  · simp at h

theorem getProviderM_error_cache {st : FState} {ty : String} {cfg : Option ProviderConfig}
    {d : CallDyn} {e : PErr} {st1 : FState} {tr : List Ev}
    (h : getProviderM st ty cfg d = (.error e, st1, tr)) :
    st1.cache = st.cache ∨ st1.cache = assocErase st.cache ty := by
  unfold getProviderM at h
  split at h
  · split at h
    · split at h
      · split at h
        · simp at h
        · exact Or.inr (buildNew_error h)
      · exact Or.inl (buildNew_error h)
    · simp only [Prod.mk.injEq] at h
      exact Or.inl (by rw [← h.2.1])
  · simp only [Prod.mk.injEq] at h
    exact Or.inl (by rw [← h.2.1])

theorem getProviderM_cache_shape (st : FState) (ty : String) (cfg : Option ProviderConfig)
    (d : CallDyn) :
    ∃ base, (base = st.cache ∨ base = assocErase st.cache ty) ∧
      ((getProviderM st ty cfg d).2.1.cache = base ∨
        (getProviderM st ty cfg d).2.1.cache = assocSet base ty st.nextId) := by
  rcases hres : getProviderM st ty cfg d with ⟨res, st1, tr⟩
  cases res with
  | error e =>
    rcases getProviderM_error_cache hres with h | h
    · exact ⟨st.cache, Or.inl rfl, Or.inl h⟩
    · exact ⟨assocErase st.cache ty, Or.inr rfl, Or.inl h⟩
  | ok id =>
    rcases getProviderM_ok_cases hres with ⟨h1, -⟩ | ⟨-, h2, -, -⟩
    · exact ⟨st.cache, Or.inl rfl, Or.inl (by rw [h1])⟩
    · rcases h2 with h2 | h2
      · exact ⟨st.cache, Or.inl rfl, Or.inr h2⟩
      · exact ⟨assocErase st.cache ty, Or.inr rfl, Or.inr h2⟩

theorem getProviderM_preserves_nodup (st : FState) (ty : String) (cfg : Option ProviderConfig)
    (d : CallDyn) (h : FKeysNodup st) : FKeysNodup (getProviderM st ty cfg d).2.1 := by
  obtain ⟨base, hbase, hshape⟩ := getProviderM_cache_shape st ty cfg d
  have hb : (base.map Prod.fst).Nodup := by
    rcases hbase with h1 | h1
    · rw [h1]; exact h
    · rw [h1]; exact keys_nodup_erase _ _ h
  unfold FKeysNodup
  rcases hshape with h2 | h2
  · rw [h2]; exact hb
  · rw [h2]; exact keys_nodup_set _ _ _ hb

theorem getProviderM_no_apiKey (st : FState) (ty : String) (cfg : Option ProviderConfig)
    (d : CallDyn) (h : hasApiKey cfg = false) :
    ∃ e, getProviderM st ty cfg d = (.error e, st, []) := by
  unfold getProviderM
  by_cases hty : ty ∈ SUPPORTED_PROVIDERS
  · rw [if_pos hty, if_neg (by rw [h]; exact Bool.false_ne_true)]
    exact ⟨_, rfl⟩
  · rw [if_neg hty]
    exact ⟨_, rfl⟩

theorem tryLoop_eq_runAttempts (env : String → Option String)
    (cfgMap : String → Option ProviderConfig) (dyn : Nat → CallDyn) :
    ∀ (tys : List String) (st : FState) (k : Nat),
      runAttempts env cfgMap dyn (tys.map (fun t => (t, false))) st k =
        tryLoop env cfgMap dyn tys st k := by
  intro tys
  induction tys with
  | nil => intro st k; rfl
  | cons ty rest ih =>
    intro st k
    simp only [List.map_cons, runAttempts, tryLoop]
    rcases hg : getProviderM st ty (builtConfig env cfgMap ty) (dyn k) with ⟨res, st1, tr⟩
    cases res with
    | ok id => rfl
    | error e => simp [ih st1 (k + 1)]

theorem runAttempts_error (env : String → Option String)
    (cfgMap : String → Option ProviderConfig) (dyn : Nat → CallDyn) :
    ∀ (atts : List (String × Bool)) (st : FState) (k : Nat) (e : PErr),
      (runAttempts env cfgMap dyn atts st k).1 = .error e →
        e = ⟨noProvidersMsg, .NO_PROVIDERS⟩ := by
  intro atts
  induction atts with
  | nil =>
    intro st k e h
    simp only [runAttempts] at h
    exact (Except.error.injEq _ _ ▸ h).symm
  | cons att rest ih =>
    intro st k e h
    rcases att with ⟨ty, pref⟩
    simp only [runAttempts] at h
    rcases hg : getProviderM st ty (builtConfig env cfgMap ty) (dyn k) with ⟨res, st1, tr⟩
    rw [hg] at h
    cases res with
    | ok id => simp at h
    | error e1 =>
      simp only at h
      exact ih st1 (k + 1) e h

theorem collectAll_empty_creds (env : String → Option String)
    (cfgMap : String → Option ProviderConfig) (dyn : Nat → CallDyn)
    (henv : ∀ k, env k = none) (hcfg : ∀ t, cfgMap t = none) :
    ∀ (tys : List String) (st : FState) (k : Nat),
      (collectAll env cfgMap dyn tys st k).1 = [] := by
  intro tys
  induction tys with
  | nil => intro st k; rfl
  | cons ty rest ih =>
    intro st k
    have hbc : builtConfig env cfgMap ty = some ⟨none, none⟩ := by
      simp [builtConfig, hcfg ty, henv]
    have hnk : hasApiKey (builtConfig env cfgMap ty) = false := by
      rw [hbc]; rfl
    obtain ⟨e, he⟩ := getProviderM_no_apiKey st ty (builtConfig env cfgMap ty) (dyn k) hnk
    simp only [collectAll, he]
    exact ih st (k + 1)

theorem collectAll_attempted (env : String → Option String)
    (cfgMap : String → Option ProviderConfig) (dyn : Nat → CallDyn) :
    ∀ (tys : List String) (st : FState) (k : Nat) (ty : String), ty ∈ tys →
      (∃ id, (ty, id) ∈ (collectAll env cfgMap dyn tys st k).1) ∨
        (∃ m, warnProviderMsg ty m ∈ (collectAll env cfgMap dyn tys st k).2.2) := by
  intro tys
  induction tys with
  | nil => intro st k ty h; cases h
  | cons ty0 rest ih =>
    intro st k ty hmem
    rcases hg : getProviderM st ty0 (builtConfig env cfgMap ty0) (dyn k) with ⟨res, st1, tr⟩
    rcases List.mem_cons.mp hmem with heq | htail
    · subst heq
      cases res with
      | ok id =>
        exact Or.inl ⟨id, by simp [collectAll, hg]⟩
      | error e =>
        exact Or.inr ⟨e.message, by simp [collectAll, hg]⟩
    · cases res with
      | ok id =>
        rcases ih st1 (k + 1) ty htail with ⟨id2, h2⟩ | ⟨m, h2⟩
        · exact Or.inl ⟨id2, by simp [collectAll, hg]; exact Or.inr h2⟩
        · exact Or.inr ⟨m, by simp [collectAll, hg]; exact h2⟩
      | error e =>
        rcases ih st1 (k + 1) ty htail with ⟨id2, h2⟩ | ⟨m, h2⟩
        · exact Or.inl ⟨id2, by simp [collectAll, hg]; exact h2⟩
        · exact Or.inr ⟨m, by simp [collectAll, hg]; exact Or.inr h2⟩

theorem collectAll_keys_sublist (env : String → Option String)
    (cfgMap : String → Option ProviderConfig) (dyn : Nat → CallDyn) :
    ∀ (tys : List String) (st : FState) (k : Nat),
      ((collectAll env cfgMap dyn tys st k).1.map Prod.fst).Sublist tys := by
  intro tys
  induction tys with
  | nil => intro st k; simp [collectAll]
  | cons ty0 rest ih =>
    intro st k
    rcases hg : getProviderM st ty0 (builtConfig env cfgMap ty0) (dyn k) with ⟨res, st1, tr⟩
    cases res with
    | ok id =>
      simp only [collectAll, hg, List.map_cons]
      exact List.Sublist.cons₂ ty0 (ih st1 (k + 1))
    | error e =>
      simp only [collectAll, hg]
      exact List.Sublist.cons ty0 (ih st1 (k + 1))

/-- The outcome categories of handleError as the code exhibits them: the three
named structured categories, the timeout-or-network pair, the structured-error
default carrying the inner detail, and the final generic message carrying the
underlying detail. -/
inductive ErrClass where
  | overload
  | rateLimit
  | malformed
  | netTimeout
  | apiError
  | generic
deriving DecidableEq, Repr

/-- Membership of a message in one of the six handleError outcome categories. -/
def errClassHolds : ErrClass → List Char → Prop
  | .overload, m => m = overloadMsg
  | .rateLimit, m => m = rateLimitMsg
  | .malformed, m => m = invalidRequestMsg
  | .netTimeout, m => m = timeoutMsg ∨ m = networkMsg
  | .apiError, m => ∃ d, m = apiErrPrefix ++ d
  | .generic, m => ∃ d, m = genericPrefix ++ d

/-- Modelled from the spec: the five categories the spec names for handleError
(overload, rate-limit, malformed-request, network-or-timeout, and a generic
communicating-with-provider message carrying the underlying detail). -/
def specFiveCategories (m : List Char) : Prop :=
  m = overloadMsg ∨ m = rateLimitMsg ∨ m = invalidRequestMsg ∨
    (m = timeoutMsg ∨ m = networkMsg) ∨ ∃ d, m = genericPrefix ++ d

theorem take_len_append (p d : List Char) : (p ++ d).take p.length = p := by
  induction p with
  | nil => simp
  | cons a p ih => simp [ih]

theorem take_append_le (p d : List Char) (n : Nat) (h : n ≤ p.length) :
    (p ++ d).take n = p.take n := by
  induction p generalizing n with
  | nil =>
    have : n = 0 := Nat.le_zero.mp (by simpa using h)
    simp [this]
  | cons a p ih =>
    cases n with
    | zero => simp
    | succ n => simp [ih n (by simpa using h)]

theorem not_prefix_form (p m : List Char) (h : m.take p.length ≠ p) :
    ¬∃ d, m = p ++ d := by
  rintro ⟨d, hd⟩
  exact h (by rw [hd, take_len_append])


theorem handleError_shapes (e : JsError) :
    handleError e = overloadMsg ∨ handleError e = rateLimitMsg ∨
      handleError e = invalidRequestMsg ∨ handleError e = timeoutMsg ∨
      handleError e = networkMsg ∨ (∃ d, handleError e = apiErrPrefix ++ d) ∨
      (∃ d, handleError e = genericPrefix ++ d) := by
  have hfb : handleErrorFallback e = timeoutMsg ∨ handleErrorFallback e = networkMsg ∨
      ∃ d, handleErrorFallback e = genericPrefix ++ d := by
    unfold handleErrorFallback
    split
    · exact Or.inl rfl
    · split
      · exact Or.inr (Or.inl rfl)
      · exact Or.inr (Or.inr ⟨e.message, rfl⟩)
  have hexp : ∀ m : List Char,
      m = timeoutMsg ∨ m = networkMsg ∨ (∃ d, m = genericPrefix ++ d) →
      m = overloadMsg ∨ m = rateLimitMsg ∨ m = invalidRequestMsg ∨ m = timeoutMsg ∨
        m = networkMsg ∨ (∃ d, m = apiErrPrefix ++ d) ∨ (∃ d, m = genericPrefix ++ d) := by
    intro m hm
    rcases hm with h | h | h
    · exact Or.inr (Or.inr (Or.inr (Or.inl h)))
    · exact Or.inr (Or.inr (Or.inr (Or.inr (Or.inl h))))
    · exact Or.inr (Or.inr (Or.inr (Or.inr (Or.inr (Or.inr h)))))
  unfold handleError
  split
  · rename_i t b het heb
    split
    · split
      · exact Or.inl rfl
      · split
        · exact Or.inr (Or.inl rfl)
        · split
          · exact Or.inr (Or.inr (Or.inl rfl))
          · exact Or.inr (Or.inr (Or.inr (Or.inr (Or.inr (Or.inl ⟨b.bmessage, rfl⟩)))))
    · exact hexp _ hfb
  · exact hexp _ hfb

theorem uniq_class_overload : ∃! c, errClassHolds c overloadMsg := by
  refine ⟨.overload, rfl, ?_⟩
  intro y hy
  cases y with
  | overload => rfl
  | rateLimit => exact absurd (show overloadMsg = rateLimitMsg from hy) (by decide)
  | malformed => exact absurd (show overloadMsg = invalidRequestMsg from hy) (by decide)
  | netTimeout =>
    rcases show overloadMsg = timeoutMsg ∨ overloadMsg = networkMsg from hy with h | h <;>
      exact absurd h (by decide)
  | apiError =>
    exact absurd (show ∃ d, overloadMsg = apiErrPrefix ++ d from hy)
      (not_prefix_form _ _ (by decide))
  | generic =>
    exact absurd (show ∃ d, overloadMsg = genericPrefix ++ d from hy)
      (not_prefix_form _ _ (by decide))

theorem uniq_class_rateLimit : ∃! c, errClassHolds c rateLimitMsg := by
  refine ⟨.rateLimit, rfl, ?_⟩
  intro y hy
  cases y with
  | rateLimit => rfl
  | overload => exact absurd (show rateLimitMsg = overloadMsg from hy) (by decide)
  | malformed => exact absurd (show rateLimitMsg = invalidRequestMsg from hy) (by decide)
  | netTimeout =>
    rcases show rateLimitMsg = timeoutMsg ∨ rateLimitMsg = networkMsg from hy with h | h <;>
      exact absurd h (by decide)
  | apiError =>
    exact absurd (show ∃ d, rateLimitMsg = apiErrPrefix ++ d from hy)
      (not_prefix_form _ _ (by decide))
  | generic =>
    exact absurd (show ∃ d, rateLimitMsg = genericPrefix ++ d from hy)
      (not_prefix_form _ _ (by decide))

theorem uniq_class_malformed : ∃! c, errClassHolds c invalidRequestMsg := by
  refine ⟨.malformed, rfl, ?_⟩
  intro y hy
  cases y with
  | malformed => rfl
  | overload => exact absurd (show invalidRequestMsg = overloadMsg from hy) (by decide)
  | rateLimit => exact absurd (show invalidRequestMsg = rateLimitMsg from hy) (by decide)
  | netTimeout =>
    rcases show invalidRequestMsg = timeoutMsg ∨ invalidRequestMsg = networkMsg from hy with h | h <;>
      exact absurd h (by decide)
  | apiError =>
    exact absurd (show ∃ d, invalidRequestMsg = apiErrPrefix ++ d from hy)
      (not_prefix_form _ _ (by decide))
  | generic =>
    exact absurd (show ∃ d, invalidRequestMsg = genericPrefix ++ d from hy)
      (not_prefix_form _ _ (by decide))

theorem uniq_class_timeout : ∃! c, errClassHolds c timeoutMsg := by
  refine ⟨.netTimeout, Or.inl rfl, ?_⟩
  intro y hy
  cases y with
  | netTimeout => rfl
  | overload => exact absurd (show timeoutMsg = overloadMsg from hy) (by decide)
  | rateLimit => exact absurd (show timeoutMsg = rateLimitMsg from hy) (by decide)
  | malformed => exact absurd (show timeoutMsg = invalidRequestMsg from hy) (by decide)
  | apiError =>
    exact absurd (show ∃ d, timeoutMsg = apiErrPrefix ++ d from hy)
      (not_prefix_form _ _ (by decide))
  | generic =>
    exact absurd (show ∃ d, timeoutMsg = genericPrefix ++ d from hy)
      (not_prefix_form _ _ (by decide))

theorem uniq_class_network : ∃! c, errClassHolds c networkMsg := by
  refine ⟨.netTimeout, Or.inr rfl, ?_⟩
  intro y hy
  cases y with
  | netTimeout => rfl
  | overload => exact absurd (show networkMsg = overloadMsg from hy) (by decide)
  | rateLimit => exact absurd (show networkMsg = rateLimitMsg from hy) (by decide)
  | malformed => exact absurd (show networkMsg = invalidRequestMsg from hy) (by decide)
  | apiError =>
    exact absurd (show ∃ d, networkMsg = apiErrPrefix ++ d from hy)
      (not_prefix_form _ _ (by decide))
  | generic =>
    exact absurd (show ∃ d, networkMsg = genericPrefix ++ d from hy)
      (not_prefix_form _ _ (by decide))

theorem uniq_class_apiError (d : List Char) : ∃! c, errClassHolds c (apiErrPrefix ++ d) := by
  refine ⟨.apiError, ⟨d, rfl⟩, ?_⟩
  intro y hy
  cases y with
  | apiError => rfl
  | overload =>
    have htake := take_len_append apiErrPrefix d
    rw [show apiErrPrefix ++ d = overloadMsg from hy] at htake
    exact absurd htake (by decide)
  | rateLimit =>
    have htake := take_len_append apiErrPrefix d
    rw [show apiErrPrefix ++ d = rateLimitMsg from hy] at htake
    exact absurd htake (by decide)
  | malformed =>
    have htake := take_len_append apiErrPrefix d
    rw [show apiErrPrefix ++ d = invalidRequestMsg from hy] at htake
    exact absurd htake (by decide)
  | netTimeout =>
    have htake := take_len_append apiErrPrefix d
    rcases show apiErrPrefix ++ d = timeoutMsg ∨ apiErrPrefix ++ d = networkMsg from hy with h | h <;>
      rw [h] at htake <;> exact absurd htake (by decide)
  | generic =>
    obtain ⟨d2, h2⟩ := show ∃ d2, apiErrPrefix ++ d = genericPrefix ++ d2 from hy
    have htake := take_len_append apiErrPrefix d
    rw [h2, take_append_le genericPrefix d2 apiErrPrefix.length (by decide)] at htake
    exact absurd htake (by decide)

theorem uniq_class_generic (d : List Char) : ∃! c, errClassHolds c (genericPrefix ++ d) := by
  refine ⟨.generic, ⟨d, rfl⟩, ?_⟩
  intro y hy
  cases y with
  | generic => rfl
  | overload =>
    have htake := take_len_append genericPrefix d
    rw [show genericPrefix ++ d = overloadMsg from hy] at htake
    exact absurd htake (by decide)
  | rateLimit =>
    have htake := take_len_append genericPrefix d
    rw [show genericPrefix ++ d = rateLimitMsg from hy] at htake
    exact absurd htake (by decide)
  | malformed =>
    have htake := take_len_append genericPrefix d
    rw [show genericPrefix ++ d = invalidRequestMsg from hy] at htake
    exact absurd htake (by decide)
  | netTimeout =>
    have htake := take_len_append genericPrefix d
    rcases show genericPrefix ++ d = timeoutMsg ∨ genericPrefix ++ d = networkMsg from hy with h | h <;>
      rw [h] at htake <;> exact absurd htake (by decide)
  | apiError =>
    obtain ⟨d2, h2⟩ := show ∃ d2, genericPrefix ++ d = apiErrPrefix ++ d2 from hy
    have htake := congrArg (List.take apiErrPrefix.length) h2
    rw [take_append_le genericPrefix d apiErrPrefix.length (by decide),
      take_len_append apiErrPrefix d2] at htake
    exact absurd htake (by decide)

/-- C2: getProvider with a type outside the supported set fails with
INVALID_PROVIDER whatever the config; with a supported type and a config lacking
a truthy apiKey it fails with INVALID_CONFIG.  In both cases the state is
untouched and the effect trace is empty: no probe, module load, construction,
initialization or network call was attempted. -/
theorem claim_C2 :
    (∀ (st : FState) (ty : String) (cfg : Option ProviderConfig) (d : CallDyn),
        ty ∉ SUPPORTED_PROVIDERS →
          getProviderM st ty cfg d =
            (.error ⟨invalidProviderMsg ty, .INVALID_PROVIDER⟩, st, [])) ∧
    (∀ (st : FState) (ty : String) (cfg : Option ProviderConfig) (d : CallDyn),
        ty ∈ SUPPORTED_PROVIDERS → hasApiKey cfg = false →
          getProviderM st ty cfg d =
            (.error ⟨apiKeyRequiredMsg ty, .INVALID_CONFIG⟩, st, [])) := by
  constructor
  · intro st ty cfg d h
    simp [getProviderM, h]
  · intro st ty cfg d hty hkey
    simp [getProviderM, hty, hkey]

/-- Witness for C2 at the unsupported type openai and at anthropic without a
config. -/
theorem claim_C2_witness :
    getProviderM ⟨[], 0⟩ "openai" (some ⟨some "k", none⟩) ⟨true, none, none, true⟩ =
      (.error ⟨invalidProviderMsg "openai", .INVALID_PROVIDER⟩, ⟨[], 0⟩, []) ∧
    getProviderM ⟨[], 0⟩ "anthropic" none ⟨true, none, none, true⟩ =
      (.error ⟨apiKeyRequiredMsg "anthropic", .INVALID_CONFIG⟩, ⟨[], 0⟩, []) :=
  ⟨claim_C2.1 ⟨[], 0⟩ "openai" (some ⟨some "k", none⟩) ⟨true, none, none, true⟩ (by decide),
    claim_C2.2 ⟨[], 0⟩ "anthropic" none ⟨true, none, none, true⟩ (by decide) rfl⟩

/-- C3: after a successful getProvider call, a second sequential call with the
same supported type and a validating config whose cached-instance probe succeeds
returns the identical cached instance (same identity) and leaves the registry
unchanged, its only effect being the probe; and every getProvider call preserves
the invariant that the registry holds at most one entry per provider type. -/
theorem claim_C3 :
    (∀ (st : FState) (ty : String) (cfg cfg2 : Option ProviderConfig) (d1 d2 : CallDyn)
        (id : Nat) (st1 : FState) (tr1 : List Ev),
        ty ∈ SUPPORTED_PROVIDERS → hasApiKey cfg2 = true → d2.probeCachedOk = true →
        getProviderM st ty cfg d1 = (.ok id, st1, tr1) →
        getProviderM st1 ty cfg2 d2 = (.ok id, st1, [.probeCached id true])) ∧
    (∀ (st : FState) (ty : String) (cfg : Option ProviderConfig) (d : CallDyn),
        FKeysNodup st → FKeysNodup (getProviderM st ty cfg d).2.1) := by
  constructor
  · intro st ty cfg cfg2 d1 d2 id st1 tr1 hty hkey hp h
    have hfind := getProviderM_ok_find h
    simp [getProviderM, hty, hkey, hfind, hp]
  · exact fun st ty cfg d h => getProviderM_preserves_nodup st ty cfg d h

/-- Witness for C3: a concrete first call builds and caches instance 0, and the
second call returns the same instance 0 without touching the state. -/
theorem claim_C3_witness :
    getProviderM ⟨[("anthropic", 0)], 1⟩ "anthropic" (some ⟨some "k", none⟩)
        ⟨true, none, none, true⟩ =
      (.ok 0, ⟨[("anthropic", 0)], 1⟩, [.probeCached 0 true]) :=
  claim_C3.1 ⟨[], 0⟩ "anthropic" (some ⟨some "k", none⟩) (some ⟨some "k", none⟩)
    ⟨true, none, none, true⟩ ⟨true, none, none, true⟩ 0 ⟨[("anthropic", 0)], 1⟩
    [.moduleLoad "anthropic" true, .construct 0, .initAttempt 0 (some ⟨some "k", none⟩) true,
      .probeNew 0 true, .cacheWrite "anthropic" 0]
    (by decide) rfl rfl rfl

/-- C10: when a getProvider call throws (any failure code), the instance freshly
constructed during that call is never present in the resulting cache; and any
entry of the resulting cache of a successful call either was already cached or
is the new instance, which was initialized with the supplied config and passed
its availability probe before the cache write. -/
theorem claim_C10 :
    (∀ (st : FState) (ty : String) (cfg : Option ProviderConfig) (d : CallDyn)
        (e : PErr) (st1 : FState) (tr : List Ev),
        FIdsBelow st →
        getProviderM st ty cfg d = (.error e, st1, tr) →
        ∀ t, assocFind st1.cache t ≠ some st.nextId) ∧
    (∀ (st : FState) (ty : String) (cfg : Option ProviderConfig) (d : CallDyn)
        (id : Nat) (st1 : FState) (tr : List Ev),
        getProviderM st ty cfg d = (.ok id, st1, tr) →
        ∀ t v, assocFind st1.cache t = some v →
          assocFind st.cache t = some v ∨
            (t = ty ∧ v = id ∧ Ev.initAttempt v cfg true ∈ tr ∧ Ev.probeNew v true ∈ tr)) := by
  constructor
  · intro st ty cfg d e st1 tr hids h t hfind
    rcases getProviderM_error_cache h with hc | hc
    · rw [hc] at hfind
      exact absurd (hids _ (assocFind_mem _ _ _ hfind)) (Nat.lt_irrefl st.nextId)
    · rw [hc] at hfind
      have hmem := (assocErase_sublist st.cache ty).subset (assocFind_mem _ _ _ hfind)
      exact absurd (hids _ hmem) (Nat.lt_irrefl st.nextId)
  · intro st ty cfg d id st1 tr h t v hfind
    rcases getProviderM_ok_cases h with ⟨hst, -⟩ | ⟨hid, hshape, hinit, hprobe⟩
    · rw [hst] at hfind
      exact Or.inl hfind
    · by_cases hts : t = ty
      · subst hts
        have hv : v = id := by
          rcases hshape with hs | hs <;> rw [hs, assocFind_set_self] at hfind <;>
            (injection hfind with hh; rw [← hh, hid])
        subst hv
        exact Or.inr ⟨rfl, rfl, hinit, hprobe⟩
      · rcases hshape with hs | hs
        · rw [hs, assocFind_set_ne _ _ _ _ hts] at hfind
          exact Or.inl hfind
        · rw [hs, assocFind_set_ne _ _ _ _ hts, assocFind_erase_ne _ _ _ hts] at hfind
          exact Or.inl hfind

/-- Witness for C10 at a concrete failing call (missing apiKey): the fresh
identity 0 is not cached. -/
theorem claim_C10_witness :
    assocFind (FState.mk [] 0).cache "anthropic" ≠ some 0 :=
  claim_C10.1 ⟨[], 0⟩ "anthropic" none ⟨true, none, none, true⟩
    ⟨apiKeyRequiredMsg "anthropic", .INVALID_CONFIG⟩ ⟨[], 0⟩ []
    (fun p hp => absurd hp (List.not_mem_nil p)) rfl "anthropic"

/-- C4: a vendor reply with no brace region makes each of the three generation
operations return an error (no crash) whose message is handleError applied to
the parse-failure error, the very same rewrap path a vendor error takes (final
conjunct). -/
theorem claim_C4 :
    ∀ (synMsg content : List Char),
      (∀ pre mid post, content ≠ pre ++ openBrace :: (mid ++ closeBrace :: post)) →
      generateTasksRun synMsg (.ok content) = .error (handleError (plainErr parseFailMsg)) ∧
      expandTaskRun synMsg (.ok content) = .error (handleError (plainErr parseFailMsg)) ∧
      analyzeComplexityRun synMsg (.ok content) = .error (handleError (plainErr parseFailMsg)) ∧
      (∀ e, generateTasksRun synMsg (.error e) = .error (handleError e)) := by
  intro synMsg content hno
  have hext := extractGreedy_eq_none content hno
  refine ⟨?_, ?_, ?_, fun e => rfl⟩
  · simp [generateTasksRun, processTasks, hext]
  · simp [expandTaskRun, processSubtasks, hext]
  · simp [analyzeComplexityRun, processAnalyze, hext]

/-- Witness for C4 at the reply hello, which contains no brace at all. -/
theorem claim_C4_witness :
    generateTasksRun [] (.ok ("hello".toList)) = .error (handleError (plainErr parseFailMsg)) ∧
    expandTaskRun [] (.ok ("hello".toList)) = .error (handleError (plainErr parseFailMsg)) ∧
    analyzeComplexityRun [] (.ok ("hello".toList)) = .error (handleError (plainErr parseFailMsg)) ∧
    (∀ e, generateTasksRun [] (.error e) = .error (handleError e)) :=
  claim_C4 [] ("hello".toList)
    (noRegion_of_not_openBrace_mem ("hello".toList) (by decide))

/-- C8: the Anthropic isAvailable is a total boolean function of the provider
state and the vendor-call outcome (so it cannot throw), and it returns true
exactly when the provider is initialized with a truthy apiKey and the minimal
vendor call succeeds; every failure, including an unconfigured provider, a
missing or empty apiKey and a vendor error, collapses to false. -/
theorem claim_C8 :
    ∀ (cfg : Option ProviderConfig) (call : Except JsError Unit),
      isAvailableAnthropic cfg call = true ↔
        ∃ c k, cfg = some c ∧ c.apiKey = some k ∧ k ≠ "" ∧ call = .ok () := by
  intro cfg call
  constructor
  · intro h
    cases cfg with
    | none => simp [isAvailableAnthropic] at h
    | some c =>
      cases hk : c.apiKey with
      | none => simp [isAvailableAnthropic, hk] at h
      | some k =>
        by_cases hke : k = ""
        · simp [isAvailableAnthropic, hk, hke] at h
        · cases call with
          | error e => simp [isAvailableAnthropic, hk, hke] at h
          | ok u => exact ⟨c, k, rfl, hk, hke, by cases u; rfl⟩
  · rintro ⟨c, k, hcfg, hk, hke, hcall⟩
    subst hcfg
    subst hcall
    simp [isAvailableAnthropic, hk, hke]

/-- The pattern of claim C9 stated structurally: the literal case-sensitive
prefix TASK- followed by the alternation of a single zero or a nonzero digit and
further digits. -/
def matchesTaskIdPattern (s : String) : Prop :=
  ∃ ds : List Char, s.data = 'T' :: 'A' :: 'S' :: 'K' :: '-' :: ds ∧
    (ds = ['0'] ∨ ∃ c rest, ds = c :: rest ∧ ('1' ≤ c ∧ c ≤ '9') ∧ ∀ x ∈ rest, x.isDigit = true)

theorem digitsNoLeadZero_iff (ds : List Char) :
    digitsNoLeadZero ds = true ↔
      (ds = ['0'] ∨ ∃ c rest, ds = c :: rest ∧ ('1' ≤ c ∧ c ≤ '9') ∧
        ∀ x ∈ rest, x.isDigit = true) := by
  cases ds with
  | nil => simp [digitsNoLeadZero]
  | cons c rest =>
    simp only [digitsNoLeadZero, Bool.or_eq_true, Bool.and_eq_true, decide_eq_true_eq,
      List.all_eq_true, List.isEmpty_iff]
    constructor
    · rintro (⟨hc, hrest⟩ | ⟨hc, hall⟩)
      · subst hc
        subst hrest
        exact Or.inl rfl
      · exact Or.inr ⟨c, rest, rfl, hc, fun x hx => hall x hx⟩
    · rintro (h | ⟨c2, rest2, heq, hc2, hall⟩)
      · injection h with h1 h2
        exact Or.inl ⟨h1, h2⟩
      · injection heq with h1 h2
        subst h1
        subst h2
        exact Or.inr ⟨hc2, fun x hx => hall x hx⟩

/-- C9: the modelled validator accepts exactly the string inputs matching the
TASK- numeral pattern with total length between 6 and 12; being a total boolean
function it never throws, and every non-string input (null, undefined, others)
is rejected. -/
theorem claim_C9 :
    ∀ x : JsArg,
      isValidTaskId x = true ↔
        ∃ s, x = .jstr s ∧ matchesTaskIdPattern s ∧ 6 ≤ s.length ∧ s.length ≤ 12 := by
  intro x
  cases x with
  | jstr s =>
    simp only [isValidTaskId, Bool.and_eq_true, decide_eq_true_eq]
    constructor
    · rintro ⟨⟨hm, h6⟩, h12⟩
      refine ⟨s, rfl, ?_, h6, h12⟩
      split at hm
      · rename_i ds heq
        exact ⟨ds, heq, (digitsNoLeadZero_iff ds).mp hm⟩
      · exact absurd hm (by simp)
    · rintro ⟨s2, hs, ⟨ds, hdata, hpat⟩, h6, h12⟩
      injection hs with hss
      subst hss
      refine ⟨⟨?_, h6⟩, h12⟩
      rw [hdata]
      exact (digitsNoLeadZero_iff ds).mpr hpat
  | jsNull =>
    constructor
    · intro h
      simp [isValidTaskId] at h
    · rintro ⟨s, hs, -⟩
      cases hs
  | jsUndefined =>
    constructor
    · intro h
      simp [isValidTaskId] at h
    · rintro ⟨s, hs, -⟩
      cases hs
  | jsOther =>
    constructor
    · intro h
      simp [isValidTaskId] at h
    · rintro ⟨s, hs, -⟩
      cases hs

/-- A reply holding a complete tasks object followed by a second brace pair:
the first balanced region parses and carries a tasks array, while the region the
code extracts runs to the last close brace and is not valid JSON. -/
def c1cex : List Char := "\x7b\x22tasks\x22:[]\x7d\x7b\x7d".toList

/-- Counterexample to C1 as stated: on the concrete reply of c1cex the
generateTasks post-processing does not behave as the first-balanced-region
pipeline the claim words; the claimed pipeline returns the empty tasks array
while the code fails to parse the greedy region. -/
theorem claim_C1_counterexample :
    processTasks [] c1cex ≠ specProcessTasks [] c1cex := by
  intro h
  rw [show processTasks [] c1cex = Except.error [] from rfl,
    show specProcessTasks [] c1cex = Except.ok [] from rfl] at h
  exact Except.noConfusion h

/-- C1 amended: for every reply text, generateTasks succeeds with ts exactly
when the region running from the first open brace (having a later close brace)
to the last close brace of the reply — the greedy match, not the first balanced
region — parses as JSON with a tasks array field holding ts, and it fails
otherwise; expandTask behaves identically with the subtasks field. -/
theorem claim_C1_amended :
    (∀ (synMsg content : List Char) (ts : List JVal),
        processTasks synMsg content = .ok ts ↔
          ∃ pre mid post v,
            content = pre ++ openBrace :: (mid ++ closeBrace :: post) ∧
            openBrace ∉ pre ∧ closeBrace ∉ post ∧
            jsonParse (openBrace :: (mid ++ [closeBrace])) = some v ∧
            jGet v tasksKey = some (.jarr ts)) ∧
    (∀ (synMsg content : List Char) (ss : List JVal),
        processSubtasks synMsg content = .ok ss ↔
          ∃ pre mid post v,
            content = pre ++ openBrace :: (mid ++ closeBrace :: post) ∧
            openBrace ∉ pre ∧ closeBrace ∉ post ∧
            jsonParse (openBrace :: (mid ++ [closeBrace])) = some v ∧
            jGet v subtasksKey = some (.jarr ss)) := by
  constructor
  · intro synMsg content ts
    constructor
    · intro h
      unfold processTasks at h
      rcases he : extractGreedy content with - | region
      · simp only [he] at h
        exact absurd h (by simp)
      · simp only [he] at h
        rcases hp : jsonParse region with - | v
        · simp only [hp] at h
          exact absurd h (by simp)
        · simp only [hp] at h
          rcases hg : jGet v tasksKey with - | w
          · simp only [hg] at h
            exact absurd h (by simp)
          · simp only [hg] at h
            cases w with
            | jarr ts2 =>
              obtain ⟨pre, mid, post, hcs, hpre, hpost, hr⟩ :=
                (extractGreedy_eq_some content region).mp he
              injection h with hh
              subst hh
              exact ⟨pre, mid, post, v, hcs, hpre, hpost, by rw [← hr]; exact hp, hg⟩
            | jnull => exact absurd h (by simp)
            | jbool b => exact absurd h (by simp)
            | jnum lx => exact absurd h (by simp)
            | jstr u => exact absurd h (by simp)
            | jobj fs => exact absurd h (by simp)
    · rintro ⟨pre, mid, post, v, hcs, hpre, hpost, hp, hg⟩
      have he : extractGreedy content = some (openBrace :: (mid ++ [closeBrace])) :=
        (extractGreedy_eq_some content _).mpr ⟨pre, mid, post, hcs, hpre, hpost, rfl⟩
      unfold processTasks
      simp only [he, hp, hg]
  · intro synMsg content ss
    constructor
    · intro h
      unfold processSubtasks at h
      rcases he : extractGreedy content with - | region
      · simp only [he] at h
        exact absurd h (by simp)
      · simp only [he] at h
        rcases hp : jsonParse region with - | v
        · simp only [hp] at h
          exact absurd h (by simp)
        · simp only [hp] at h
          rcases hg : jGet v subtasksKey with - | w
          · simp only [hg] at h
            exact absurd h (by simp)
          · simp only [hg] at h
            cases w with
            | jarr ss2 =>
              obtain ⟨pre, mid, post, hcs, hpre, hpost, hr⟩ :=
                (extractGreedy_eq_some content region).mp he
              injection h with hh
              subst hh
              exact ⟨pre, mid, post, v, hcs, hpre, hpost, by rw [← hr]; exact hp, hg⟩
            | jnull => exact absurd h (by simp)
            | jbool b => exact absurd h (by simp)
            | jnum lx => exact absurd h (by simp)
            | jstr u => exact absurd h (by simp)
            | jobj fs => exact absurd h (by simp)
    · rintro ⟨pre, mid, post, v, hcs, hpre, hpost, hp, hg⟩
      have he : extractGreedy content = some (openBrace :: (mid ++ [closeBrace])) :=
        (extractGreedy_eq_some content _).mpr ⟨pre, mid, post, hcs, hpre, hpost, rfl⟩
      unfold processSubtasks
      simp only [he, hp, hg]

/-- A structured Anthropic error whose inner type matches none of the three
named cases, driving handleError into its Claude-API-error default branch. -/
def c5err : JsError := ⟨some "error", some ⟨"api_error", "boom".toList⟩, "x".toList⟩

/-- Counterexample to C5 as stated: the message handleError produces for the
structured error c5err falls in none of the five categories the claim lists —
it is the sixth, Claude-API-error, outcome of the switch default. -/
theorem claim_C5_counterexample : ¬ specFiveCategories (handleError c5err) := by
  intro hc
  rw [show handleError c5err = apiErrPrefix ++ "boom".toList from rfl] at hc
  rcases hc with h | h | h | (h | h) | ⟨d, h⟩
  · have htake := take_len_append apiErrPrefix ("boom".toList)
    rw [h] at htake
    exact absurd htake (by decide)
  · have htake := take_len_append apiErrPrefix ("boom".toList)
    rw [h] at htake
    exact absurd htake (by decide)
  · have htake := take_len_append apiErrPrefix ("boom".toList)
    rw [h] at htake
    exact absurd htake (by decide)
  · have htake := take_len_append apiErrPrefix ("boom".toList)
    rw [h] at htake
    exact absurd htake (by decide)
  · have htake := take_len_append apiErrPrefix ("boom".toList)
    rw [h] at htake
    exact absurd htake (by decide)
  · have htake := take_len_append apiErrPrefix ("boom".toList)
    rw [h, take_append_le genericPrefix d apiErrPrefix.length (by decide)] at htake
    exact absurd htake (by decide)

/-- C5 amended: every error surfaced by a generation operation is a message
produced by handleError (never the raw vendor exception), and handleError maps
every error into exactly one of six categories: overload, rate-limit,
malformed-request, network-or-timeout, the structured Claude-API-error message
carrying the vendor detail, or the generic communicating-with-Claude message
carrying the underlying detail. -/
theorem claim_C5_amended :
    (∀ (synMsg : List Char) (v : Except JsError (List Char)) (m : List Char),
        generateTasksRun synMsg v = .error m → ∃ e, m = handleError e) ∧
    (∀ (synMsg : List Char) (v : Except JsError (List Char)) (m : List Char),
        expandTaskRun synMsg v = .error m → ∃ e, m = handleError e) ∧
    (∀ (synMsg : List Char) (v : Except JsError (List Char)) (m : List Char),
        analyzeComplexityRun synMsg v = .error m → ∃ e, m = handleError e) ∧
    (∀ e : JsError, ∃! c : ErrClass, errClassHolds c (handleError e)) := by
  refine ⟨?_, ?_, ?_, ?_⟩
  · intro synMsg v m h
    cases v with
    | error e =>
      simp only [generateTasksRun] at h
      injection h with hh
      exact ⟨e, hh.symm⟩
    | ok content =>
      simp only [generateTasksRun] at h
      cases hres : processTasks synMsg content with
      | ok ts =>
        simp only [hres] at h
        exact absurd h (by simp)
      | error m2 =>
        simp only [hres] at h
        injection h with hh
        exact ⟨plainErr m2, hh.symm⟩
  · intro synMsg v m h
    cases v with
    | error e =>
      simp only [expandTaskRun] at h
      injection h with hh
      exact ⟨e, hh.symm⟩
    | ok content =>
      simp only [expandTaskRun] at h
      cases hres : processSubtasks synMsg content with
      | ok ss =>
        simp only [hres] at h
        exact absurd h (by simp)
      | error m2 =>
        simp only [hres] at h
        injection h with hh
        exact ⟨plainErr m2, hh.symm⟩
  · intro synMsg v m h
    cases v with
    | error e =>
      simp only [analyzeComplexityRun] at h
      injection h with hh
      exact ⟨e, hh.symm⟩
    | ok content =>
      simp only [analyzeComplexityRun] at h
      cases hres : processAnalyze synMsg content with
      | ok v2 =>
        simp only [hres] at h
        exact absurd h (by simp)
      | error m2 =>
        simp only [hres] at h
        injection h with hh
        exact ⟨plainErr m2, hh.symm⟩
  · intro e
    rcases handleError_shapes e with h | h | h | h | h | ⟨d, h⟩ | ⟨d, h⟩
    · rw [h]; exact uniq_class_overload
    · rw [h]; exact uniq_class_rateLimit
    · rw [h]; exact uniq_class_malformed
    · rw [h]; exact uniq_class_timeout
    · rw [h]; exact uniq_class_network
    · rw [h]; exact uniq_class_apiError d
    · rw [h]; exact uniq_class_generic d

/-- Witness for C5 amended at a concrete failed run: the surfaced message is in
the image of handleError and falls in exactly one category. -/
theorem claim_C5_amended_witness :
    (∃ e, handleError (plainErr parseFailMsg) = handleError e) ∧
    (∃! c : ErrClass, errClassHolds c (handleError (plainErr parseFailMsg))) :=
  ⟨claim_C5_amended.1 [] (.ok ("hello".toList)) (handleError (plainErr parseFailMsg)) rfl,
    claim_C5_amended.2.2.2 (plainErr parseFailMsg)⟩

/-- C6: getBestProvider equals the uniform first-success run over the attempt
list headed by the truthy AI_PROVIDER preference and continued by the fixed
order anthropic, google (each attempt reading its credentials from the
per-type environment variables); every failed attempt contributes one logged
warning while only a success or the aggregate NO_PROVIDERS failure is surfaced:
any error it returns carries exactly the NO_PROVIDERS message and code. -/
theorem claim_C6 :
    (∀ (env : String → Option String) (cfgMap : String → Option ProviderConfig)
        (dyn : Nat → CallDyn) (st : FState),
        getBestProviderM env cfgMap dyn st =
          runAttempts env cfgMap dyn (attemptsOf (env "AI_PROVIDER")) st 0) ∧
    (∀ (env : String → Option String) (cfgMap : String → Option ProviderConfig)
        (dyn : Nat → CallDyn) (st : FState) (e : PErr),
        (getBestProviderM env cfgMap dyn st).1 = .error e →
          e = ⟨noProvidersMsg, .NO_PROVIDERS⟩) := by
  have heq : ∀ (env : String → Option String) (cfgMap : String → Option ProviderConfig)
      (dyn : Nat → CallDyn) (st : FState),
      getBestProviderM env cfgMap dyn st =
        runAttempts env cfgMap dyn (attemptsOf (env "AI_PROVIDER")) st 0 := by
    intro env cfgMap dyn st
    unfold getBestProviderM attemptsOf
    cases hai : env "AI_PROVIDER" with
    | none =>
      exact (tryLoop_eq_runAttempts env cfgMap dyn ["anthropic", "google"] st 0).symm
    | some p =>
      by_cases hp : p = ""
      · simp only [hp, if_pos rfl, reduceIte]
        exact (tryLoop_eq_runAttempts env cfgMap dyn ["anthropic", "google"] st 0).symm
      · simp only [if_neg hp]
        rcases hg : getProviderM st p (builtConfig env cfgMap p) (dyn 0) with ⟨res, st1, tr⟩
        cases res with
        | ok id => simp only [runAttempts, hg]
        | error e =>
          simp [runAttempts, tryLoop, hg]
  refine ⟨heq, ?_⟩
  intro env cfgMap dyn st e h
  rw [heq env cfgMap dyn st] at h
  exact runAttempts_error env cfgMap dyn (attemptsOf (env "AI_PROVIDER")) st 0 e h

/-- Witness for C6 at an empty environment: both attempts fail, the result is
the NO_PROVIDERS error, and the run equation holds. -/
theorem claim_C6_witness :
    getBestProviderM (fun _ => none) (fun _ => none) (fun _ => ⟨true, none, none, true⟩) ⟨[], 0⟩ =
      runAttempts (fun _ => none) (fun _ => none) (fun _ => ⟨true, none, none, true⟩)
        (attemptsOf ((fun _ => (none : Option String)) "AI_PROVIDER")) ⟨[], 0⟩ 0 ∧
    (⟨noProvidersMsg, .NO_PROVIDERS⟩ : PErr) = ⟨noProvidersMsg, .NO_PROVIDERS⟩ :=
  ⟨claim_C6.1 (fun _ => none) (fun _ => none) (fun _ => ⟨true, none, none, true⟩) ⟨[], 0⟩,
    claim_C6.2 (fun _ => none) (fun _ => none) (fun _ => ⟨true, none, none, true⟩) ⟨[], 0⟩
      ⟨noProvidersMsg, .NO_PROVIDERS⟩ rfl⟩

/-- C7: getAllProviders never throws (it is a total function into a mapping),
attempts every supported type independently — each supported type either yields
a map entry or a logged warning, never an abort — collects the successes keyed
by type (the keys form a sublist of the supported list), and with all vendor
credentials absent and an empty config it returns the empty mapping. -/
theorem claim_C7 :
    (∀ (env : String → Option String) (cfgMap : String → Option ProviderConfig)
        (dyn : Nat → CallDyn) (st : FState),
        (∀ k, env k = none) → (∀ t, cfgMap t = none) →
        (getAllProvidersM env cfgMap dyn st).1 = []) ∧
    (∀ (env : String → Option String) (cfgMap : String → Option ProviderConfig)
        (dyn : Nat → CallDyn) (st : FState) (ty : String), ty ∈ SUPPORTED_PROVIDERS →
        (∃ id, (ty, id) ∈ (getAllProvidersM env cfgMap dyn st).1) ∨
          (∃ m, warnProviderMsg ty m ∈ (getAllProvidersM env cfgMap dyn st).2.2)) ∧
    (∀ (env : String → Option String) (cfgMap : String → Option ProviderConfig)
        (dyn : Nat → CallDyn) (st : FState),
        ((getAllProvidersM env cfgMap dyn st).1.map Prod.fst).Sublist SUPPORTED_PROVIDERS) := by
  refine ⟨?_, ?_, ?_⟩
  · intro env cfgMap dyn st henv hcfg
    exact collectAll_empty_creds env cfgMap dyn henv hcfg SUPPORTED_PROVIDERS st 0
  · intro env cfgMap dyn st ty hty
    exact collectAll_attempted env cfgMap dyn SUPPORTED_PROVIDERS st 0 ty hty
  · intro env cfgMap dyn st
    exact collectAll_keys_sublist env cfgMap dyn SUPPORTED_PROVIDERS st 0

/-- Witness for C7: with every environment variable and every config section
absent, the returned mapping is empty. -/
theorem claim_C7_witness :
    (getAllProvidersM (fun _ => none) (fun _ => none)
        (fun _ => ⟨true, none, none, true⟩) ⟨[], 0⟩).1 = [] :=
  claim_C7.1 (fun _ => none) (fun _ => none) (fun _ => ⟨true, none, none, true⟩) ⟨[], 0⟩
    (fun _ => rfl) (fun _ => rfl)
